import Mathlib

set_option autoImplicit false

/-!
Shallow embedding of the agent tool-calling core of the jarvis-cli repository:
the tool registry (src/unnamed/part_006, class ToolRegistry), the tool base
class (src/src/agent/tools/base.ts, class BaseTool), the conversation memory
(src/src/agent/memory.ts, class ConversationMemory) and the model-client
dispatch loop (src/src/agent/gemini.ts and src/unnamed/part_017, class
GeminiClient).  Each definition mirrors one TypeScript function; effectful
code is embedded by explicit state passing, logger calls that a property
depends on are embedded as emitted log-entry values, and thrown JavaScript
exceptions are embedded with Except.
-/

namespace Jarvis

/-- Runtime JavaScript values as far as the core inspects them: the
typeof/Array.isArray tags string, number, boolean, array, plus null as a
representative of the remaining falsy non-matching values.  Numbers are
embedded as integers; no claim depends on non-integral arithmetic. -/
inductive Value where
  | vNull : Value
  | vBool : Bool → Value
  | vNum : Int → Value
  | vStr : String → Value
  | vArr : List Value → Value

/-- The typeof value === "string" check. -/
def isString : Value → Bool
  | Value.vStr _ => true
  | _ => false

/-- The typeof value === "number" check. -/
def isNumber : Value → Bool
  | Value.vNum _ => true
  | _ => false

/-- The typeof value === "boolean" check. -/
def isBoolean : Value → Bool
  | Value.vBool _ => true
  | _ => false

/-- The Array.isArray(value) check. -/
def isArray : Value → Bool
  | Value.vArr _ => true
  | _ => false

/-- JavaScript truthiness of a value, used by the dispatch loop's
`if (toolResult.data)` test. -/
def truthy : Value → Bool
  | Value.vNull => false
  | Value.vBool b => b
  | Value.vNum n => n != 0
  | Value.vStr s => !s.isEmpty
  | Value.vArr _ => true

/-- An argument mapping (a JavaScript object Record of string to any),
embedded as an association list; key lookup finds the first matching entry,
which agrees with object semantics since object keys are unique. -/
abbrev Args := List (String × Value)

/-- The JavaScript `name in parameters` test. -/
def hasKey (args : Args) (name : String) : Bool :=
  (List.lookup name args).isSome

/-- The JavaScript property read `parameters[param.name]`; only used under a
hasKey guard, the default is never observed. -/
def getArg (args : Args) (name : String) : Value :=
  (List.lookup name args).getD Value.vNull

/-- The four declared parameter types of base.ts (ToolParameter.type). -/
inductive ParamType where
  | pString : ParamType
  | pNumber : ParamType
  | pBoolean : ParamType
  | pArray : ParamType
  deriving DecidableEq

/-- base.ts interface ToolParameter.  The optional enum field is an Option;
some [] corresponds to an empty enum array (which is truthy in JS and hence
checked). -/
structure ToolParameter where
  name : String
  type : ParamType
  description : String
  required : Bool
  enum : Option (List String)

/-- base.ts interface ToolDefinition. -/
structure ToolDefinition where
  name : String
  description : String
  parameters : List ToolParameter
  category : String

/-- base.ts interface ToolResult. -/
structure ToolResult where
  success : Bool
  data : Option Value := none
  error : Option String := none
  message : Option String := none

/-- The JavaScript `param.enum.includes(value)` test: enum is a string array,
so only a string value can be a member. -/
def enumIncludes (es : List String) : Value → Bool
  | Value.vStr s => es.contains s
  | _ => false

/-- base.ts BaseTool.validateParameters, lines 33-64: one pass over the
declared parameters in declaration order; inside each iteration the
required-presence check, then (for a present parameter) the four type checks
in sequence, then the enum check; the first failing check returns its message
and ends validation. -/
def validateParameters : List ToolParameter → Args → Option String
  | [], _ => none
  | param :: rest, args =>
    if param.required ∧ ¬ hasKey args param.name then
      some ("Missing required parameter: " ++ param.name)
    else if hasKey args param.name then
      let value := getArg args param.name
      if param.type = ParamType.pString ∧ ¬ isString value then
        some ("Parameter " ++ param.name ++ " must be a string")
      else if param.type = ParamType.pNumber ∧ ¬ isNumber value then
        some ("Parameter " ++ param.name ++ " must be a number")
      else if param.type = ParamType.pBoolean ∧ ¬ isBoolean value then
        some ("Parameter " ++ param.name ++ " must be a boolean")
      else if param.type = ParamType.pArray ∧ ¬ isArray value then
        some ("Parameter " ++ param.name ++ " must be an array")
      else
        match param.enum with
        | some es =>
          if ¬ enumIncludes es value then
            some ("Parameter " ++ param.name ++ " must be one of: " ++ String.intercalate ", " es)
          else validateParameters rest args
        | none => validateParameters rest args
    else validateParameters rest args

/-- A thrown JavaScript exception as the registry's catch block
distinguishes it: an Error instance (carrying a message) or any other thrown
value. -/
inductive Thrown where
  | errObj : String → Thrown
  | nonError : Value → Thrown

/-- A tool: its descriptor plus its execute method.  Execute is embedded as
an explicit state transformer over an abstract effect state σ which may end
normally or by throwing. -/
structure Tool (σ : Type) where
  definition : ToolDefinition
  execute : Args → σ → (Except Thrown ToolResult) × σ

/-- The registry's Map of string to BaseTool, embedded as an association
list holding insertion order, as a JavaScript Map does. -/
abbrev Registry (σ : Type) := List (String × Tool σ)

/-- JavaScript Map.set / object property assignment: overwrite in place when
the key exists (keeping its position), otherwise append. -/
def assocSet {β : Type} : List (String × β) → String → β → List (String × β)
  | [], name, v => [(name, v)]
  | (k, w) :: rest, name, v =>
    if k = name then (k, v) :: rest else (k, w) :: assocSet rest name v

/-- Log entries emitted by registry operations, as far as a verified
property depends on them (Logger itself only renders them). -/
inductive LogEntry where
  | debug : String → LogEntry
  | warning : String → LogEntry
  deriving DecidableEq

/-- part_006 ToolRegistry.getTool: Map.get. -/
def getTool {σ : Type} (tools : Registry σ) (name : String) : Option (Tool σ) :=
  List.lookup name tools

/-- The registry's `this.tools.has(name)` test. -/
def hasToolKey {σ : Type} (tools : Registry σ) (name : String) : Bool :=
  (getTool tools name).isSome

/-- part_006 ToolRegistry.registerTool, lines 12-21: warn when the name is
already registered, then Map.set, then a debug line.  The operation is total:
it cannot fail.  Returns the new registry together with the emitted log
entries. -/
def registerTool {σ : Type} (tools : Registry σ) (t : Tool σ) : Registry σ × List LogEntry :=
  let name := t.definition.name
  (assocSet tools name t,
    (if hasToolKey tools name then
      [LogEntry.warning ("Tool " ++ name ++ " is already registered, overwriting")]
    else []) ++ [LogEntry.debug ("Registered tool: " ++ name)])

/-- A sequence of registerTool calls (registry component only). -/
def registerAll {σ : Type} (tools : Registry σ) (ts : List (Tool σ)) : Registry σ :=
  ts.foldl (fun r t => (registerTool r t).1) tools

/-- part_006 ToolRegistry.getAvailableTools: the definitions of the Map's
values in insertion order. -/
def getAvailableTools {σ : Type} (tools : Registry σ) : List ToolDefinition :=
  tools.map (fun kv => kv.2.definition)

/-- part_006 ToolRegistry.getToolCount: Map.size. -/
def getToolCount {σ : Type} (tools : Registry σ) : Nat :=
  tools.length

/-- The message the catch block of executeTool builds from a thrown value:
`error instanceof Error ? error.message : 'Unknown error occurred'`. -/
def thrownMessage : Thrown → String
  | Thrown.errObj m => m
  | Thrown.nonError _ => "Unknown error occurred"

/-- The try/catch around tool.execute in part_006 executeTool lines 54-70:
a normal result is returned unchanged, a thrown value is converted to a
failed ToolResult. -/
def handleOutcome {σ : Type} : (Except Thrown ToolResult) × σ → ToolResult × σ
  | (Except.ok r, s) => (r, s)
  | (Except.error e, s) => ({ success := false, error := some (thrownMessage e) }, s)

/-- The per-tool part of part_006 ToolRegistry.executeTool (lines 45-70):
validate, short-circuit on a validation error, otherwise run execute under
try/catch. -/
def dispatchOn {σ : Type} (tool : Tool σ) (args : Args) (s : σ) : ToolResult × σ :=
  match validateParameters tool.definition.parameters args with
  | some validationError => ({ success := false, error := some validationError }, s)
  | none => handleOutcome (tool.execute args s)

/-- part_006 ToolRegistry.executeTool, lines 35-70. -/
def executeTool {σ : Type} (tools : Registry σ) (name : String) (args : Args) (s : σ) : ToolResult × σ :=
  match getTool tools name with
  | none => ({ success := false, error := some ("Tool '" ++ name ++ "' not found") }, s)
  | some tool => dispatchOn tool args s

/-- Stated from the claim language, for comparison with the source loop:
the first violated constraint of a single parameter spec against a mapping
(required presence, then declared type, then enum membership), none when the
parameter's declared constraints all hold. -/
def firstConstraintViolation (param : ToolParameter) (args : Args) : Option String :=
  if param.required ∧ ¬ hasKey args param.name then
    some ("Missing required parameter: " ++ param.name)
  else if hasKey args param.name then
    let value := getArg args param.name
    if param.type = ParamType.pString ∧ ¬ isString value then
      some ("Parameter " ++ param.name ++ " must be a string")
    else if param.type = ParamType.pNumber ∧ ¬ isNumber value then
      some ("Parameter " ++ param.name ++ " must be a number")
    else if param.type = ParamType.pBoolean ∧ ¬ isBoolean value then
      some ("Parameter " ++ param.name ++ " must be a boolean")
    else if param.type = ParamType.pArray ∧ ¬ isArray value then
      some ("Parameter " ++ param.name ++ " must be an array")
    else
      match param.enum with
      | some es =>
        if ¬ enumIncludes es value then
          some ("Parameter " ++ param.name ++ " must be one of: " ++ String.intercalate ", " es)
        else none
      | none => none
  else none

theorem validateParameters_cons (param : ToolParameter) (rest : List ToolParameter) (args : Args) :
    validateParameters (param :: rest) args =
      match firstConstraintViolation param args with
      | some e => some e
      | none => validateParameters rest args := by
  simp only [validateParameters, firstConstraintViolation]
  split_ifs <;> try rfl
  all_goals cases param.enum
  all_goals simp_all
  all_goals split_ifs <;> rfl

theorem validateParameters_eq_none_iff (params : List ToolParameter) (args : Args) :
    validateParameters params args = none ↔
      ∀ p ∈ params, firstConstraintViolation p args = none := by
  induction params with
  | nil => simp [validateParameters]
  | cons hd tl ih =>
    rw [validateParameters_cons]
    cases h : firstConstraintViolation hd args <;> simp_all

theorem validateParameters_eq_some (params : List ToolParameter) (args : Args) (err : String)
    (h : validateParameters params args = some err) :
    ∃ pre p post, params = pre ++ p :: post
      ∧ (∀ q ∈ pre, firstConstraintViolation q args = none)
      ∧ firstConstraintViolation p args = some err := by
  induction params with
  | nil => simp [validateParameters] at h
  | cons hd tl ih =>
    rw [validateParameters_cons] at h
    cases hfc : firstConstraintViolation hd args with
    | some e =>
      rw [hfc] at h
      exact ⟨[], hd, tl, rfl, by simp, by simpa [hfc] using h⟩
    | none =>
      rw [hfc] at h
      obtain ⟨pre, p, post, hsplit, hpre, hp⟩ := ih h
      exact ⟨hd :: pre, p, post, by simp [hsplit], by
        intro q hq
        rcases List.mem_cons.mp hq with hq | hq
        · exact hq ▸ hfc
        · exact hpre q hq, hp⟩

end Jarvis

namespace Jarvis

/-- Claim C1: dispatch of a registered tool validates the arguments against
the declared Parameter Specs before execute runs: when validation passes,
execute is invoked with the given arguments under try/catch; when it fails,
the result is the validation error and execute is never invoked (the result
and the state are independent of the execute body); validation passes
exactly when every declared parameter's constraints hold, and a validation
error is the message of the first violated constraint in declaration
order. -/
theorem dispatch_validates_before_execute {σ : Type} (tools : Registry σ) (name : String)
    (tool : Tool σ) (args : Args) (s : σ) (hlook : getTool tools name = some tool) :
    (validateParameters tool.definition.parameters args = none →
        executeTool tools name args s = handleOutcome (tool.execute args s))
    ∧ (∀ err, validateParameters tool.definition.parameters args = some err →
        executeTool tools name args s = ({ success := false, error := some err }, s))
    ∧ (validateParameters tool.definition.parameters args = none ↔
        ∀ p ∈ tool.definition.parameters, firstConstraintViolation p args = none)
    ∧ (∀ err, validateParameters tool.definition.parameters args = some err →
        ∃ pre p post, tool.definition.parameters = pre ++ p :: post
          ∧ (∀ q ∈ pre, firstConstraintViolation q args = none)
          ∧ firstConstraintViolation p args = some err) := by
  refine ⟨fun hval => ?_, fun err hval => ?_, ?_, ?_⟩
  · simp [executeTool, hlook, dispatchOn, hval]
  · simp [executeTool, hlook, dispatchOn, hval]
  · exact validateParameters_eq_none_iff _ _
  · exact fun err => validateParameters_eq_some _ _ err

/-- A concrete tool declaring one required number parameter x; its execute
always succeeds. -/
def toolXNumber : Tool Unit :=
  { definition :=
      { name := "t", description := "demo", category := "system",
        parameters := [{ name := "x", type := ParamType.pNumber,
                         description := "a number", required := true, enum := none }] },
    execute := fun _ s => (Except.ok { success := true }, s) }

/-- Claim C1, witness: a string argument for the number-typed parameter x is
rejected at validation with the message naming x, without reaching
execute. -/
theorem dispatch_validates_before_execute_witness :
    executeTool [("t", toolXNumber)] "t" [("x", Value.vStr "5")] () =
      ({ success := false, error := some "Parameter x must be a number" }, ()) :=
  (dispatch_validates_before_execute [("t", toolXNumber)] "t" toolXNumber
      [("x", Value.vStr "5")] () rfl).2.1 _ (by decide)

/-- Claim C2 (amended): a thrown exception during execute is caught and
converted to a failed ToolResult: the Error message when the thrown value is
an Error instance, otherwise the fixed string of the catch block; the
exception never propagates out of executeTool (which is a total
function). -/
theorem dispatch_catches_thrown {σ : Type} (tools : Registry σ) (name : String)
    (tool : Tool σ) (args : Args) (s : σ)
    (hlook : getTool tools name = some tool)
    (hval : validateParameters tool.definition.parameters args = none) :
    (∀ m s1, tool.execute args s = (Except.error (Thrown.errObj m), s1) →
        executeTool tools name args s = ({ success := false, error := some m }, s1))
    ∧ (∀ v s1, tool.execute args s = (Except.error (Thrown.nonError v), s1) →
        executeTool tools name args s =
          ({ success := false, error := some "Unknown error occurred" }, s1)) := by
  constructor
  · intro m s1 hexec
    simp [executeTool, hlook, dispatchOn, hval, hexec, handleOutcome, thrownMessage]
  · intro v s1 hexec
    simp [executeTool, hlook, dispatchOn, hval, hexec, handleOutcome, thrownMessage]

/-- A tool whose execute throws a non-Error value (null), carrying no
message. -/
def throwingTool : Tool Unit :=
  { definition :=
      { name := "boom", description := "throws a non-Error value",
        category := "system", parameters := [] },
    execute := fun _ s => (Except.error (Thrown.nonError Value.vNull), s) }

/-- Claim C2, counterexample: a thrown value carrying no message yields the
error string of the catch block, which is "Unknown error occurred", not the
"Unknown error" stated by the claim. -/
theorem dispatch_unknown_error_counterexample :
    (executeTool [("boom", throwingTool)] "boom" [] ()).1.error = some "Unknown error occurred"
    ∧ (executeTool [("boom", throwingTool)] "boom" [] ()).1.error ≠ some "Unknown error" := by
  decide

/-- A tool whose execute throws an Error instance with a message. -/
def errorTool : Tool Unit :=
  { definition :=
      { name := "err", description := "throws an Error",
        category := "system", parameters := [] },
    execute := fun _ s => (Except.error (Thrown.errObj "disk on fire"), s) }

/-- Claim C2, witness: a thrown Error instance surfaces as a failed
ToolResult carrying its message. -/
theorem dispatch_catches_thrown_witness :
    executeTool [("err", errorTool)] "err" [] () =
      ({ success := false, error := some "disk on fire" }, ()) :=
  (dispatch_catches_thrown [("err", errorTool)] "err" errorTool [] ()
      rfl (by decide)).1 "disk on fire" () rfl

theorem hasKey_cons_ne (args : Args) (k : String) (v : Value) (n : String) (h : n ≠ k) :
    hasKey ((k, v) :: args) n = hasKey args n := by
  have hbeq : (n == k) = false := beq_eq_false_iff_ne.mpr h
  simp [hasKey, List.lookup, hbeq]

theorem getArg_cons_ne (args : Args) (k : String) (v : Value) (n : String) (h : n ≠ k) :
    getArg ((k, v) :: args) n = getArg args n := by
  have hbeq : (n == k) = false := beq_eq_false_iff_ne.mpr h
  simp [getArg, List.lookup, hbeq]

theorem validateParameters_cons_undeclared (params : List ToolParameter) (args : Args)
    (k : String) (v : Value) (hk : ∀ p ∈ params, p.name ≠ k) :
    validateParameters params ((k, v) :: args) = validateParameters params args := by
  induction params with
  | nil => rfl
  | cons hd tl ih =>
    have hhd : hd.name ≠ k := hk hd (List.mem_cons_self hd tl)
    have htl : ∀ p ∈ tl, p.name ≠ k := fun p hp => hk p (List.mem_cons_of_mem hd hp)
    rw [validateParameters_cons, validateParameters_cons, ih htl]
    have hfc : firstConstraintViolation hd ((k, v) :: args) = firstConstraintViolation hd args := by
      simp only [firstConstraintViolation, hasKey_cons_ne args k v hd.name hhd,
        getArg_cons_ne args k v hd.name hhd]
    rw [hfc]

/-- Claim C10: validation inspects only the declared parameters: prepending
an argument entry whose key no Parameter Spec names leaves the validation
verdict unchanged, and when the declared parameters are satisfied, dispatch
runs execute on the full mapping, extra key included. -/
theorem dispatch_ignores_undeclared_args {σ : Type} (tools : Registry σ) (name : String)
    (tool : Tool σ) (args : Args) (k : String) (v : Value) (s : σ)
    (hlook : getTool tools name = some tool)
    (hk : ∀ p ∈ tool.definition.parameters, p.name ≠ k) :
    validateParameters tool.definition.parameters ((k, v) :: args)
      = validateParameters tool.definition.parameters args
    ∧ (validateParameters tool.definition.parameters args = none →
        executeTool tools name ((k, v) :: args) s
          = handleOutcome (tool.execute ((k, v) :: args) s)) := by
  have hsame := validateParameters_cons_undeclared tool.definition.parameters args k v hk
  refine ⟨hsame, fun hval => ?_⟩
  simp [executeTool, hlook, dispatchOn, hsame, hval]

/-- Claim C10, witness: an extra undeclared argument y does not fail
validation of toolXNumber, and dispatch reaches execute with the full
mapping. -/
theorem dispatch_ignores_undeclared_args_witness :
    executeTool [("t", toolXNumber)] "t" [("y", Value.vStr "?"), ("x", Value.vNum 3)] () =
      ({ success := true }, ()) :=
  (dispatch_ignores_undeclared_args [("t", toolXNumber)] "t" toolXNumber
      [("x", Value.vNum 3)] "y" (Value.vStr "?") () rfl (by decide)).2 (by decide)

/-- Claim C3: dispatch of a name that is not registered returns a failed
ToolResult whose error interpolates the name into the fixed not-found
message, leaves the state unchanged, and does not throw (executeTool is a
total function). -/
theorem dispatch_unknown_tool {σ : Type} (tools : Registry σ) (name : String)
    (args : Args) (s : σ) (h : getTool tools name = none) :
    executeTool tools name args s =
      ({ success := false, error := some ("Tool '" ++ name ++ "' not found") }, s) := by
  simp [executeTool, h]

/-- Claim C3, witness: dispatching "nonexistent_tool" with an empty argument
mapping on an empty registry yields exactly the specified failed result. -/
theorem dispatch_unknown_tool_witness :
    executeTool ([] : Registry Unit) "nonexistent_tool" [] () =
      ({ success := false, error := some "Tool 'nonexistent_tool' not found" }, ()) := by
  have h := dispatch_unknown_tool ([] : Registry Unit) "nonexistent_tool" [] () rfl
  simpa using h

theorem assocSet_lookup_self {β : Type} (l : List (String × β)) (n : String) (t : β) :
    List.lookup n (assocSet l n t) = some t := by
  induction l with
  | nil => simp [assocSet, List.lookup]
  | cons kv rest ih =>
    obtain ⟨k, w⟩ := kv
    by_cases hk : k = n
    · simp [assocSet, hk, List.lookup]
    · have hbeq : (n == k) = false := beq_eq_false_iff_ne.mpr (Ne.symm hk)
      simp [assocSet, hk, List.lookup, hbeq, ih]

theorem assocSet_keys {β : Type} (l : List (String × β)) (n : String) (t : β) :
    (assocSet l n t).map Prod.fst =
      if n ∈ l.map Prod.fst then l.map Prod.fst else l.map Prod.fst ++ [n] := by
  induction l with
  | nil => simp [assocSet]
  | cons kv rest ih =>
    obtain ⟨k, w⟩ := kv
    by_cases hk : k = n
    · simp [assocSet, hk]
    · have : (n ∈ k :: rest.map Prod.fst) ↔ n ∈ rest.map Prod.fst := by
        simp [Ne.symm hk]
      by_cases hmem : n ∈ rest.map Prod.fst <;> simp_all [assocSet, hk]

theorem assocSet_keys_mem {β : Type} (l : List (String × β)) (n m : String) (t : β)
    (h : m ∈ l.map Prod.fst) : m ∈ (assocSet l n t).map Prod.fst := by
  rw [assocSet_keys]
  split <;> simp [h]

theorem assocSet_keys_self_mem {β : Type} (l : List (String × β)) (n : String) (t : β) :
    n ∈ (assocSet l n t).map Prod.fst := by
  rw [assocSet_keys]
  split <;> simp_all

theorem assocSet_keys_nodup {β : Type} (l : List (String × β)) (n : String) (t : β)
    (h : (l.map Prod.fst).Nodup) : ((assocSet l n t).map Prod.fst).Nodup := by
  rw [assocSet_keys]
  split
  · exact h
  · next hmem => simp [List.nodup_append, h, hmem]

theorem assocSet_append_of_not_mem {β : Type} (l : List (String × β)) (n : String) (t : β)
    (h : n ∉ l.map Prod.fst) : assocSet l n t = l ++ [(n, t)] := by
  induction l with
  | nil => simp [assocSet]
  | cons kv rest ih =>
    obtain ⟨k, w⟩ := kv
    simp only [List.map_cons, List.mem_cons] at h
    push_neg at h
    simp [assocSet, Ne.symm h.1, ih h.2]

theorem assocSet_filter_key {β : Type} (l : List (String × β)) (n : String) (t : β)
    (h : (l.map Prod.fst).Nodup) :
    (assocSet l n t).filter (fun kv => kv.1 = n) = [(n, t)] := by
  induction l with
  | nil => simp [assocSet]
  | cons kv rest ih
  => obtain ⟨k, w⟩ := kv
     simp only [List.map_cons, List.nodup_cons] at h
     by_cases hk : k = n
     · subst hk
       have : ∀ kv ∈ rest, ¬ (fun kv => decide (Prod.fst kv = k)) kv = true := by
         intro kv hkv hdec
         simp only [decide_eq_true_eq] at hdec
         exact h.1 (hdec ▸ List.mem_map_of_mem Prod.fst hkv)
       simp [assocSet, List.filter_cons, List.filter_eq_nil_iff.mpr this]
     · simp only [assocSet, if_neg hk, List.filter_cons]
       have : (decide ((k, w).1 = n)) = false := by simpa using hk
       simp [this, ih h.2]

theorem registerTool_keys_nodup {σ : Type} (tools : Registry σ) (t : Tool σ)
    (h : (tools.map Prod.fst).Nodup) :
    (((registerTool tools t).1).map Prod.fst).Nodup :=
  assocSet_keys_nodup tools t.definition.name t h

theorem assocSet_forall {β : Type} (P : String × β → Prop) :
    ∀ (l : List (String × β)) (n : String) (t : β),
      (∀ kv ∈ l, P kv) → P (n, t) →
      ∀ kv ∈ assocSet l n t, P kv := by
  intro l
  induction l with
  | nil =>
    intro n t _ ht kv hkv
    simp only [assocSet, List.mem_singleton] at hkv
    exact hkv ▸ ht
  | cons hd rest ih =>
    intro n t hl ht kv hkv
    obtain ⟨k, w⟩ := hd
    by_cases hk : k = n
    · simp only [assocSet, if_pos hk] at hkv
      rcases List.mem_cons.mp hkv with rfl | hkv
      · exact hk ▸ ht
      · exact hl kv (List.mem_cons_of_mem _ hkv)
    · simp only [assocSet, if_neg hk] at hkv
      rcases List.mem_cons.mp hkv with rfl | hkv
      · exact hl (k, w) (List.mem_cons_self _ _)
      · exact ih n t (fun kv hkv => hl kv (List.mem_cons_of_mem _ hkv)) ht kv hkv

theorem registerTool_wf {σ : Type} (tools : Registry σ) (t : Tool σ)
    (h : ∀ kv ∈ tools, kv.1 = kv.2.definition.name) :
    ∀ kv ∈ (registerTool tools t).1, kv.1 = kv.2.definition.name :=
  assocSet_forall (fun (kv : String × Tool σ) => kv.1 = kv.2.definition.name)
    tools t.definition.name t h rfl

theorem lookup_isSome_of_mem_keys {β : Type} (l : List (String × β)) (n : String)
    (h : n ∈ l.map Prod.fst) : (List.lookup n l).isSome = true := by
  induction l with
  | nil => simp at h
  | cons kv rest ih =>
    obtain ⟨k, w⟩ := kv
    by_cases hk : n = k
    · simp [List.lookup, hk]
    · have hbeq : (n == k) = false := beq_eq_false_iff_ne.mpr hk
      simp only [List.map_cons, List.mem_cons] at h
      rcases h with h | h
      · exact absurd h hk
      · simp [List.lookup, hbeq, ih h]

theorem registerAll_keys_nodup {σ : Type} (ts : List (Tool σ)) :
    ∀ (tools : Registry σ), (tools.map Prod.fst).Nodup →
      ((registerAll tools ts).map Prod.fst).Nodup := by
  induction ts with
  | nil => intro tools h; exact h
  | cons hd tl ih =>
    intro tools h
    exact ih _ (registerTool_keys_nodup tools hd h)

theorem registerAll_wf {σ : Type} (ts : List (Tool σ)) :
    ∀ (tools : Registry σ), (∀ kv ∈ tools, kv.1 = kv.2.definition.name) →
      ∀ kv ∈ registerAll tools ts, kv.1 = kv.2.definition.name := by
  induction ts with
  | nil => intro tools h; exact h
  | cons hd tl ih =>
    intro tools h
    exact ih _ (registerTool_wf tools hd h)

theorem registerAll_keys_mem {σ : Type} (ts : List (Tool σ)) :
    ∀ (tools : Registry σ) (n : String), n ∈ tools.map Prod.fst →
      n ∈ (registerAll tools ts).map Prod.fst := by
  induction ts with
  | nil => intro tools n h; exact h
  | cons hd tl ih =>
    intro tools n h
    exact ih _ n (assocSet_keys_mem tools hd.definition.name n hd h)

/-- Claim C4: registering a second tool under an existing name (after the
first registration, with any other registrations in between) leaves exactly
one catalog entry for that name (the most recent definition), makes dispatch
of that name reach the most recently registered implementation, and emits a
warning log entry followed by the debug entry; registerTool is a total
function, so registration never fails. -/
theorem register_overwrite {σ : Type} (tools : Registry σ) (t1 t2 : Tool σ)
    (mid : List (Tool σ))
    (hnodup : (tools.map Prod.fst).Nodup)
    (hwf : ∀ kv ∈ tools, kv.1 = kv.2.definition.name)
    (hname : t1.definition.name = t2.definition.name) :
    getTool (registerTool (registerAll (registerTool tools t1).1 mid) t2).1
        t2.definition.name = some t2
    ∧ (getAvailableTools (registerTool (registerAll (registerTool tools t1).1 mid) t2).1).filter
        (fun d => d.name = t2.definition.name) = [t2.definition]
    ∧ (∀ args s, executeTool (registerTool (registerAll (registerTool tools t1).1 mid) t2).1
          t2.definition.name args s = dispatchOn t2 args s)
    ∧ (registerTool (registerAll (registerTool tools t1).1 mid) t2).2
        = [LogEntry.warning
             ("Tool " ++ t2.definition.name ++ " is already registered, overwriting"),
           LogEntry.debug ("Registered tool: " ++ t2.definition.name)] := by
  have hlook : getTool (registerTool (registerAll (registerTool tools t1).1 mid) t2).1
      t2.definition.name = some t2 :=
    assocSet_lookup_self _ t2.definition.name t2
  have hnodupMid : (((registerAll (registerTool tools t1).1 mid)).map Prod.fst).Nodup :=
    registerAll_keys_nodup mid _ (registerTool_keys_nodup tools t1 hnodup)
  have hwfMid : ∀ kv ∈ registerAll (registerTool tools t1).1 mid,
      kv.1 = kv.2.definition.name :=
    registerAll_wf mid _ (registerTool_wf tools t1 hwf)
  have hwfFin : ∀ kv ∈ (registerTool (registerAll (registerTool tools t1).1 mid) t2).1,
      kv.1 = kv.2.definition.name :=
    registerTool_wf _ t2 hwfMid
  refine ⟨hlook, ?_, ?_, ?_⟩
  · have hfil : ((registerTool (registerAll (registerTool tools t1).1 mid) t2).1).filter
        (fun kv => kv.1 = t2.definition.name) = [(t2.definition.name, t2)] :=
      assocSet_filter_key _ t2.definition.name t2 hnodupMid
    have hcongr : ((registerTool (registerAll (registerTool tools t1).1 mid) t2).1).filter
        (fun kv => kv.2.definition.name = t2.definition.name)
        = ((registerTool (registerAll (registerTool tools t1).1 mid) t2).1).filter
        (fun kv => kv.1 = t2.definition.name) := by
      apply List.filter_congr
      intro kv hkv
      rw [hwfFin kv hkv]
    unfold getAvailableTools
    rw [List.filter_map, Function.comp_def, hcongr, hfil]
    rfl
  · intro args s
    simp [executeTool, hlook]
  · have hmem : t2.definition.name ∈
        (registerAll (registerTool tools t1).1 mid).map Prod.fst := by
      apply registerAll_keys_mem
      rw [← hname]
      exact assocSet_keys_self_mem tools t1.definition.name t1
    have hhas : hasToolKey (registerAll (registerTool tools t1).1 mid)
        t2.definition.name = true := by
      unfold hasToolKey getTool
      exact lookup_isSome_of_mem_keys _ _ hmem
    have hhas2 : hasToolKey (registerAll (assocSet tools t1.definition.name t1) mid)
        t2.definition.name = true := hhas
    simp [registerTool, hhas2]

/-- A first tool named dup. -/
def toolDupA : Tool Unit :=
  { definition := { name := "dup", description := "first", parameters := [], category := "system" },
    execute := fun _ s => (Except.ok { success := true, message := some "A" }, s) }

/-- A second tool named dup. -/
def toolDupB : Tool Unit :=
  { definition := { name := "dup", description := "second", parameters := [], category := "system" },
    execute := fun _ s => (Except.ok { success := true, message := some "B" }, s) }

/-- An unrelated tool registered in between. -/
def toolOther : Tool Unit :=
  { definition := { name := "other", description := "other", parameters := [], category := "system" },
    execute := fun _ s => (Except.ok { success := true }, s) }

/-- Claim C4, witness: registering dup, then another tool, then dup again on
an empty registry leaves one catalog entry for dup (the second definition),
dispatch reaches the second implementation, and the overwriting registration
emitted the warning entry. -/
theorem register_overwrite_witness :
    getTool (registerTool (registerAll (registerTool ([] : Registry Unit) toolDupA).1
        [toolOther]) toolDupB).1 toolDupB.definition.name = some toolDupB
    ∧ (getAvailableTools (registerTool (registerAll (registerTool ([] : Registry Unit)
        toolDupA).1 [toolOther]) toolDupB).1).filter
        (fun d => d.name = toolDupB.definition.name) = [toolDupB.definition]
    ∧ (∀ args s, executeTool (registerTool (registerAll (registerTool ([] : Registry Unit)
          toolDupA).1 [toolOther]) toolDupB).1 toolDupB.definition.name args s
        = dispatchOn toolDupB args s)
    ∧ (registerTool (registerAll (registerTool ([] : Registry Unit) toolDupA).1
        [toolOther]) toolDupB).2
      = [LogEntry.warning
           ("Tool " ++ toolDupB.definition.name ++ " is already registered, overwriting"),
         LogEntry.debug ("Registered tool: " ++ toolDupB.definition.name)] :=
  register_overwrite ([] : Registry Unit) toolDupA toolDupB [toolOther]
    (by simp) (by simp) rfl

/-- An entry of the properties object of an exported function definition:
the declared type and description, the enum only when declared (the source
spreads the enum key conditionally). -/
structure PropertyDef where
  type : ParamType
  description : String
  enum : Option (List String)
  deriving DecidableEq

/-- One exported function definition: part_006 getFunctionDefinitions
builds the JSON-schema-like object with a reduce over the parameters for
properties and filter/map for required. -/
structure FunctionDef where
  name : String
  description : String
  properties : List (String × PropertyDef)
  required : List String
  deriving DecidableEq

/-- part_006 ToolRegistry.getFunctionDefinitions, lines 74-93: one entry per
registered tool; properties built by a reduce assigning
props[param.name] = ... in declaration order (object property assignment is
assocSet); required = names of parameters with required true. -/
def getFunctionDefinitions {σ : Type} (tools : Registry σ) : List FunctionDef :=
  (getAvailableTools tools).map (fun tool =>
    { name := tool.name
      description := tool.description
      properties := tool.parameters.foldl
        (fun props param => assocSet props param.name
          { type := param.type, description := param.description, enum := param.enum }) []
      required := (tool.parameters.filter (fun p => p.required)).map (fun p => p.name) })

/-- Stated from the claim language, for comparison with
getFunctionDefinitions: one properties field per declared parameter carrying
its declared type, description and (exactly when declared) enum, and the
required list of the names of the parameters marked required. -/
def specFunctionDef (d : ToolDefinition) : FunctionDef :=
  { name := d.name
    description := d.description
    properties := d.parameters.map (fun p =>
      (p.name, { type := p.type, description := p.description, enum := p.enum }))
    required := (d.parameters.filter (fun p => p.required)).map (fun p => p.name) }

theorem foldl_assocSet_map {β ι : Type} (name : ι → String) (val : ι → β) :
    ∀ (items : List ι) (acc : List (String × β)),
      (∀ i ∈ items, name i ∉ acc.map Prod.fst) →
      ((items.map name).Nodup) →
      items.foldl (fun props p => assocSet props (name p) (val p)) acc
        = acc ++ items.map (fun p => (name p, val p)) := by
  intro items
  induction items with
  | nil => simp
  | cons hd tl ih =>
    intro acc hfresh hnodup
    simp only [List.map_cons, List.nodup_cons] at hnodup
    have hstep : assocSet acc (name hd) (val hd) = acc ++ [(name hd, val hd)] :=
      assocSet_append_of_not_mem acc (name hd) (val hd)
        (hfresh hd (List.mem_cons_self _ _))
    have hfresh2 : ∀ i ∈ tl, name i ∉ (acc ++ [(name hd, val hd)]).map Prod.fst := by
      intro i hi
      simp only [List.map_append, List.mem_append, List.map_cons, List.map_nil,
        List.mem_singleton, not_or]
      refine ⟨hfresh i (List.mem_cons_of_mem _ hi), fun hcontra => ?_⟩
      exact hnodup.1 (hcontra ▸ List.mem_map_of_mem name hi)
    calc (hd :: tl).foldl (fun props p => assocSet props (name p) (val p)) acc
        = tl.foldl (fun props p => assocSet props (name p) (val p))
            (acc ++ [(name hd, val hd)]) := by rw [List.foldl_cons, hstep]
      _ = acc ++ [(name hd, val hd)] ++ tl.map (fun p => (name p, val p)) :=
            ih _ hfresh2 hnodup.2
      _ = acc ++ (hd :: tl).map (fun p => (name p, val p)) := by simp

/-- Claim C5: the exported schema is a pure projection of the registered
descriptors: one entry per registered tool in order; for every tool whose
parameter names are distinct, the properties object has exactly one field
per declared parameter carrying its declared type, description and (exactly
when declared) enum, and the required list is exactly the names of the
parameters marked required. -/
theorem schema_mirrors_descriptors {σ : Type} (tools : Registry σ)
    (h : ∀ d ∈ getAvailableTools tools, (d.parameters.map ToolParameter.name).Nodup) :
    getFunctionDefinitions tools = (getAvailableTools tools).map specFunctionDef
    ∧ ∀ d ∈ getAvailableTools tools, ∀ n,
        n ∈ (specFunctionDef d).required ↔
          ∃ p ∈ d.parameters, p.required = true ∧ p.name = n := by
  constructor
  · unfold getFunctionDefinitions
    apply List.map_congr_left
    intro d hd
    unfold specFunctionDef
    have := foldl_assocSet_map ToolParameter.name
      (fun p => ({ type := p.type, description := p.description, enum := p.enum } : PropertyDef))
      d.parameters [] (by simp) (h d hd)
    simp only [List.nil_append] at this
    rw [this]
  · intro d _ n
    simp only [specFunctionDef, List.mem_map, List.mem_filter]
    constructor
    · rintro ⟨p, ⟨hp, hreq⟩, hname⟩
      exact ⟨p, hp, by simpa using hreq, hname⟩
    · rintro ⟨p, hp, hreq, hname⟩
      exact ⟨p, ⟨hp, by simpa using hreq⟩, hname⟩

/-- Claim C5, witness: the schema export of a registry holding the
one-parameter tool t mirrors its descriptor exactly. -/
theorem schema_mirrors_descriptors_witness :
    getFunctionDefinitions [("t", toolXNumber)]
      = (getAvailableTools [("t", toolXNumber)]).map specFunctionDef
    ∧ ∀ d ∈ getAvailableTools [("t", toolXNumber)], ∀ n,
        n ∈ (specFunctionDef d).required ↔
          ∃ p ∈ d.parameters, p.required = true ∧ p.name = n :=
  schema_mirrors_descriptors [("t", toolXNumber)] (by decide)

/-- memory.ts Message.role. -/
inductive Role where
  | user : Role
  | model : Role
  deriving DecidableEq

/-- memory.ts interface Message; Date.now() timestamps are embedded as
naturals supplied at each append. -/
structure Message where
  role : Role
  content : String
  timestamp : Nat
  deriving DecidableEq

/-- memory.ts class ConversationMemory: the messages array and the
configured cap (constructor default 20). -/
structure ConversationMemory where
  messages : List Message
  maxMessages : Nat

/-- JavaScript arr.slice(-n) on a list: for n greater than 0 the last
min(n, length) elements; for n = 0 the whole array, because -0 is 0 and
slice(0) copies the array. -/
def sliceNeg {α : Type} (n : Nat) (l : List α) : List α :=
  if n = 0 then l else l.drop (l.length - n)

/-- memory.ts ConversationMemory.trimHistory, lines 111-117: when the length
exceeds the cap, keep messages.slice(-maxMessages). -/
def trimHistory (mem : ConversationMemory) : ConversationMemory :=
  if mem.messages.length > mem.maxMessages then
    { mem with messages := sliceNeg mem.maxMessages mem.messages }
  else mem

/-- memory.ts ConversationMemory.addUserMessage, lines 42-51: push a
timestamped user message, then trim. -/
def addUserMessage (mem : ConversationMemory) (content : String) (now : Nat) : ConversationMemory :=
  trimHistory { mem with
    messages := mem.messages ++ [{ role := Role.user, content := content, timestamp := now }] }

/-- memory.ts ConversationMemory.addModelMessage, lines 56-65. -/
def addModelMessage (mem : ConversationMemory) (content : String) (now : Nat) : ConversationMemory :=
  trimHistory { mem with
    messages := mem.messages ++ [{ role := Role.model, content := content, timestamp := now }] }

/-- memory.ts ConversationMemory.getRecentMessages, lines 77-80: the limit
is count || maxMessages (so a zero or absent count falls back to the cap),
then messages.slice(-limit). -/
def getRecentMessages (mem : ConversationMemory) (count : Option Nat) : List Message :=
  let limit := match count with
    | some c => if c = 0 then mem.maxMessages else c
    | none => mem.maxMessages
  sliceNeg limit mem.messages

/-- The message an append request (role, content, timestamp) creates. -/
def toMessage : Role × String × Nat → Message
  | (r, c, t) => { role := r, content := c, timestamp := t }

/-- One append of either role. -/
def addMessage (mem : ConversationMemory) : Role × String × Nat → ConversationMemory
  | (Role.user, c, t) => addUserMessage mem c t
  | (Role.model, c, t) => addModelMessage mem c t

/-- A whole sequence of appends. -/
def appendAll (mem : ConversationMemory) (es : List (Role × String × Nat)) : ConversationMemory :=
  es.foldl addMessage mem

theorem addMessage_eq (mem : ConversationMemory) (e : Role × String × Nat) :
    addMessage mem e =
      trimHistory { mem with messages := mem.messages ++ [toMessage e] } := by
  obtain ⟨r, c, t⟩ := e
  cases r <;> rfl

theorem trimHistory_eq_drop (cap : Nat) (hcap : 1 ≤ cap) (l : List Message) :
    trimHistory { messages := l, maxMessages := cap } =
      { messages := l.drop (l.length - cap), maxMessages := cap } := by
  unfold trimHistory sliceNeg
  by_cases h : l.length > cap
  · simp only [h, if_true]
    have : cap ≠ 0 := by omega
    simp [this]
  · have : l.length - cap = 0 := by omega
    simp [h, this]

theorem drop_tail_absorb {α : Type} (cap : Nat) (l l2 : List α) :
    ((l.drop (l.length - cap)) ++ l2).drop (((l.drop (l.length - cap)) ++ l2).length - cap)
      = (l ++ l2).drop ((l ++ l2).length - cap) := by
  rw [List.drop_append_eq_append_drop, List.drop_append_eq_append_drop, List.drop_drop]
  congr 1
  · congr 1
    simp only [List.length_append, List.length_drop]
    omega
  · congr 1
    simp only [List.length_append, List.length_drop]
    omega

theorem appendAll_messages (cap : Nat) (hcap : 1 ≤ cap) :
    ∀ (es : List (Role × String × Nat)) (mem : ConversationMemory),
      mem.maxMessages = cap → mem.messages.length ≤ cap →
      appendAll mem es =
        { messages := (mem.messages ++ es.map toMessage).drop
            ((mem.messages ++ es.map toMessage).length - cap),
          maxMessages := cap } := by
  intro es
  induction es with
  | nil =>
    intro mem hmax hlen
    have : mem.messages.length - cap = 0 := by omega
    simp only [appendAll, List.foldl_nil, List.map_nil, List.append_nil, this, List.drop_zero]
    cases mem
    simp_all
  | cons e es ih =>
    intro mem hmax hlen
    have hstep : addMessage mem e =
        { messages := (mem.messages ++ [toMessage e]).drop
            ((mem.messages ++ [toMessage e]).length - cap),
          maxMessages := cap } := by
      rw [addMessage_eq, hmax]
      exact trimHistory_eq_drop cap hcap _
    have hlen2 :
        ((mem.messages ++ [toMessage e]).drop
          ((mem.messages ++ [toMessage e]).length - cap)).length ≤ cap := by
      simp only [List.length_drop]
      omega
    have : appendAll mem (e :: es) = appendAll (addMessage mem e) es := rfl
    rw [this, hstep, ih _ rfl hlen2]
    congr 1
    · rw [drop_tail_absorb cap (mem.messages ++ [toMessage e]) (es.map toMessage)]
      simp [List.append_assoc]

/-- Claim C7 (amended to a cap of at least 1): after any sequence of appends
into a memory configured with cap at least 1, the stored sequence is exactly
the last min(k, cap) appended messages in append order (oldest evicted
first, nothing mutated), and after every prefix of the appends the length is
at most the cap. -/
theorem memory_bound_and_order (cap : Nat) (hcap : 1 ≤ cap)
    (es : List (Role × String × Nat)) :
    (appendAll { messages := [], maxMessages := cap } es).messages
      = (es.map toMessage).drop (es.length - cap)
    ∧ (appendAll { messages := [], maxMessages := cap } es).messages.length
      = min es.length cap
    ∧ ∀ pre suf, es = pre ++ suf →
        (appendAll { messages := [], maxMessages := cap } pre).messages.length ≤ cap := by
  have hchar : ∀ l, (appendAll { messages := [], maxMessages := cap } l).messages
      = (l.map toMessage).drop (l.length - cap) := by
    intro l
    rw [appendAll_messages cap hcap l _ rfl (by simp)]
    simp
  refine ⟨hchar es, ?_, ?_⟩
  · rw [hchar es]
    simp only [List.length_drop, List.length_map]
    omega
  · intro pre _ _
    rw [hchar pre]
    simp only [List.length_drop, List.length_map]
    omega

/-- Claim C7, witness: with cap 2, three appends leave exactly the last two
messages in order. -/
theorem memory_bound_and_order_witness :
    (appendAll { messages := [], maxMessages := 2 }
        [(Role.user, "a", 1), (Role.model, "b", 2), (Role.user, "c", 3)]).messages
      = ([(Role.user, "a", 1), (Role.model, "b", 2), (Role.user, "c", 3)].map toMessage).drop
          (3 - 2)
    ∧ (appendAll { messages := [], maxMessages := 2 }
        [(Role.user, "a", 1), (Role.model, "b", 2), (Role.user, "c", 3)]).messages.length
      = min 3 2
    ∧ ∀ pre suf,
        [(Role.user, "a", 1), (Role.model, "b", 2), (Role.user, "c", 3)] = pre ++ suf →
        (appendAll { messages := [], maxMessages := 2 } pre).messages.length ≤ 2 :=
  memory_bound_and_order 2 (by decide)
    [(Role.user, "a", 1), (Role.model, "b", 2), (Role.user, "c", 3)]

/-- Claim C7, counterexample: with a configured cap of 0 a single append is
kept (messages.slice(-0) is the whole array), so the stored sequence is not
the last min(1, 0) = 0 appended messages and the length bound fails. -/
theorem memory_cap_zero_counterexample :
    (appendAll { messages := [], maxMessages := 0 } [(Role.user, "hi", 5)]).messages
      = [{ role := Role.user, content := "hi", timestamp := 5 }]
    ∧ ¬ (appendAll { messages := [], maxMessages := 0 }
          [(Role.user, "hi", 5)]).messages.length ≤ 0 := by
  decide

/-- Claim C9 (amended to a count of at least 1): recent(n) for n at least 1
returns the last min(n, length) stored messages in stored order, hence all
stored messages when fewer than n are stored; recent(0) instead falls back
to the configured cap as the limit because 0 is falsy in count ||
maxMessages. -/
theorem recent_messages (mem : ConversationMemory) (n : Nat) (hn : 1 ≤ n) :
    getRecentMessages mem (some n) = mem.messages.drop (mem.messages.length - n)
    ∧ (mem.messages.length ≤ n → getRecentMessages mem (some n) = mem.messages) := by
  have hne : ¬ n = 0 := by omega
  have h : getRecentMessages mem (some n) = mem.messages.drop (mem.messages.length - n) := by
    simp [getRecentMessages, sliceNeg, hne]
  refine ⟨h, fun hle => ?_⟩
  have : mem.messages.length - n = 0 := by omega
  simp [h, this]

/-- Claim C9, witness: recent(2) of a three-message history is its last two
messages. -/
theorem recent_messages_witness :
    getRecentMessages
        { messages := [{ role := Role.user, content := "a", timestamp := 1 },
                       { role := Role.model, content := "b", timestamp := 2 },
                       { role := Role.user, content := "c", timestamp := 3 }],
          maxMessages := 20 } (some 2)
      = ([{ role := Role.user, content := "a", timestamp := 1 },
          { role := Role.model, content := "b", timestamp := 2 },
          { role := Role.user, content := "c", timestamp := 3 }] : List Message).drop (3 - 2) :=
  (recent_messages
    { messages := [{ role := Role.user, content := "a", timestamp := 1 },
                   { role := Role.model, content := "b", timestamp := 2 },
                   { role := Role.user, content := "c", timestamp := 3 }],
      maxMessages := 20 } 2 (by decide)).1

/-- Claim C9, counterexample: recent(0) on a one-message history returns
that message (count 0 is falsy, so the limit becomes the cap), not the empty
sequence of the last 0 messages. -/
theorem recent_zero_counterexample :
    getRecentMessages
        { messages := [{ role := Role.user, content := "hi", timestamp := 0 }],
          maxMessages := 20 } (some 0)
      = [{ role := Role.user, content := "hi", timestamp := 0 }]
    ∧ ([{ role := Role.user, content := "hi", timestamp := 0 }] : List Message) ≠ [] := by
  decide

/-- gemini.ts ConversationMessage.role (the GeminiClient-side history uses
roles user and assistant). -/
inductive GRole where
  | user : GRole
  | assistant : GRole
  deriving DecidableEq

/-- gemini.ts interface ConversationMessage; new Date() timestamps embedded
as naturals supplied per turn. -/
structure ConversationMessage where
  role : GRole
  content : String
  timestamp : Nat
  deriving DecidableEq

/-- gemini.ts GeminiClient.addToHistory, lines 180-191: push, then keep the
last 50 when the length exceeds 50. -/
def addToHistory (history : List ConversationMessage) (role : GRole) (content : String)
    (now : Nat) : List ConversationMessage :=
  let h := history ++ [{ role := role, content := content, timestamp := now }]
  if h.length > 50 then sliceNeg 50 h else h

/-- One function call of a model reply: its name and argument object (the
source reads functionCall.name and functionCall.args or an empty object). -/
structure FunctionCall where
  name : String
  args : Args

/-- The part of a model reply the dispatch loop inspects: its function-call
list (empty when the reply is plain text) and its text. -/
structure ModelReply where
  functionCalls : List FunctionCall
  text : String

/-- The GeminiClient state the claims concern: the conversation history and
the optional tool registry. -/
structure GeminiClient (σ : Type) where
  conversationHistory : List ConversationMessage
  toolRegistry : Option (Registry σ)

/-- Spaces for JSON.stringify indentation. -/
def spaces (n : Nat) : String :=
  String.mk (List.replicate n ' ')

/-- JSON string escaping for the characters that can appear in embedded
values. -/
def jsonEscape (s : String) : String :=
  String.join (s.data.map (fun c =>
    if c = '"' then "\\\""
    else if c = '\\' then "\\\\"
    else if c = '\n' then "\\n"
    else if c = '\t' then "\\t"
    else if c = '\r' then "\\r"
    else String.singleton c))

mutual

/-- JSON.stringify(v, null, 2) at a given current indent, for the embedded
value type. -/
def jsonStringify (indent : Nat) : Value → String
  | Value.vNull => "null"
  | Value.vBool b => if b then "true" else "false"
  | Value.vNum n => toString n
  | Value.vStr s => "\"" ++ jsonEscape s ++ "\""
  | Value.vArr [] => "[]"
  | Value.vArr (x :: xs) =>
    "[\n" ++ jsonItems (indent + 2) x xs ++ "\n" ++ spaces indent ++ "]"
termination_by v => sizeOf v

/-- The comma-and-newline separated items of a JSON array. -/
def jsonItems (indent : Nat) : Value → List Value → String
  | x, [] => spaces indent ++ jsonStringify indent x
  | x, y :: ys => spaces indent ++ jsonStringify indent x ++ ",\n" ++ jsonItems indent y ys
termination_by x ys => sizeOf x + sizeOf ys

end

/-- The JavaScript template of value || default for an optional string: an
absent or empty (falsy) string selects the default. -/
def jsOrElse (o : Option String) (d : String) : String :=
  match o with
  | some m => if m = "" then d else m
  | none => d

/-- Direct template interpolation of an optional string: an absent value
renders as the string undefined. -/
def interpolate (o : Option String) : String :=
  match o with
  | some e => e
  | none => "undefined"

/-- The per-call summary text the dispatch loop appends to responseText
(gemini.ts lines 85-92 and the identical loop body of part_017 lines
112-122): a checkmark line with message (or the generic fallback) plus a
Result block for truthy data on success, a cross line with the error on
failure. -/
def summaryFor (name : String) (r : ToolResult) : String :=
  if r.success then
    "✅ " ++ jsOrElse r.message ("Executed " ++ name ++ " successfully") ++ "\n"
      ++ (match r.data with
          | some d => if truthy d then "Result: " ++ jsonStringify 0 d ++ "\n" else ""
          | none => "")
  else
    "❌ Error executing " ++ name ++ ": " ++ interpolate r.error ++ "\n"

/-- The for-of loop over the function calls of one turn (gemini.ts lines
79-93, part_017 lines 106-123): execute each call through the registry in
emission order, threading the effect state, and accumulate the summaries
into responseText. -/
def processFunctionCalls {σ : Type} (tools : Registry σ) :
    List FunctionCall → σ → String × σ
  | [], s => ("", s)
  | c :: cs, s =>
    let first := executeTool tools c.name c.args s
    let rest := processFunctionCalls tools cs first.2
    (summaryFor c.name first.1 ++ rest.1, rest.2)

/-- Stated from the claim language, for comparison with the loop: the
sequential run of the calls, collecting each ToolResult, where call N+1
executes in the state call N left behind. -/
def runCalls {σ : Type} (tools : Registry σ) :
    List FunctionCall → σ → List ToolResult × σ
  | [], s => ([], s)
  | c :: cs, s =>
    let first := executeTool tools c.name c.args s
    let rest := runCalls tools cs first.2
    (first.1 :: rest.1, rest.2)

/-- The whitespace class of the JavaScript string trim operation, for the
characters this embedding can hold. -/
def isJsWhitespace (c : Char) : Bool :=
  c = ' ' || c = '\t' || c = '\n' || c = '\r' || c = '\u000B' || c = '\u000C'

/-- JavaScript text.trim(): strip leading and trailing whitespace. -/
def jsTrim (s : String) : String :=
  String.mk (((s.data.dropWhile isJsWhitespace).reverse.dropWhile isJsWhitespace).reverse)

/-- The fixed user-facing fallback of the catch block of generateResponse
(identical in gemini.ts and part_017); the empty-text reply path throws into
this catch. -/
def fallbackText : String :=
  "I'm having trouble connecting to my AI brain right now. Please try again in a moment, or check if your GEMINI_API_KEY is configured correctly."

/-- The regular-text tail of generateResponse (identical in gemini.ts lines
114-133 and part_017): an empty or whitespace-only text throws, the catch
returns the fixed fallback with no assistant append; otherwise the raw text
is appended to history and the trimmed text returned. -/
def textReply {σ : Type} (client : GeminiClient σ) (h1 : List ConversationMessage)
    (reply : ModelReply) (now : Nat) (s : σ) : String × GeminiClient σ × σ :=
  if jsTrim reply.text = "" then
    (fallbackText, { client with conversationHistory := h1 }, s)
  else
    (jsTrim reply.text,
     { client with conversationHistory := addToHistory h1 GRole.assistant reply.text now },
     s)

namespace Part017

/-- part_017 GeminiClient.generateResponse: append the user message, then
either run the function calls and return the local summary (lines 102-130),
or fall to the regular-text path.  The model reply is an input (the network
call is the collaborator boundary). -/
def generateResponse {σ : Type} (client : GeminiClient σ) (reply : ModelReply)
    (userInput : String) (now : Nat) (s : σ) : String × GeminiClient σ × σ :=
  let h1 := addToHistory client.conversationHistory GRole.user userInput now
  match client.toolRegistry with
  | some tools =>
    if 0 < reply.functionCalls.length then
      let res := processFunctionCalls tools reply.functionCalls s
      let summary := "I executed " ++ toString reply.functionCalls.length
        ++ " tool(s) for you:\n\n" ++ res.1
      (summary,
       { client with conversationHistory := addToHistory h1 GRole.assistant summary now },
       res.2)
    else textReply client h1 reply now s
  | none => textReply client h1 reply now s

end Part017

namespace GeminiTs

/-- src/src/agent/gemini.ts GeminiClient.generateResponse: append the user
message, then either run the function calls, send the accumulated summaries
back to the model and return the trimmed follow-up text (lines 75-112), or
fall to the regular-text path (lines 114-133).  Both model replies are
inputs. -/
def generateResponse {σ : Type} (client : GeminiClient σ) (reply : ModelReply)
    (followUpText : String) (userInput : String) (now : Nat) (s : σ) :
    String × GeminiClient σ × σ :=
  let h1 := addToHistory client.conversationHistory GRole.user userInput now
  match client.toolRegistry with
  | some tools =>
    if 0 < reply.functionCalls.length then
      let res := processFunctionCalls tools reply.functionCalls s
      (jsTrim followUpText,
       { client with conversationHistory := addToHistory h1 GRole.assistant followUpText now },
       res.2)
    else textReply client h1 reply now s
  | none => textReply client h1 reply now s

end GeminiTs

theorem foldl_append_init (l : List String) : ∀ (a : String),
    l.foldl (fun r s => r ++ s) a = a ++ l.foldl (fun r s => r ++ s) "" := by
  induction l with
  | nil => intro a; simp
  | cons b l ih =>
    intro a
    rw [List.foldl_cons, List.foldl_cons, ih (a ++ b), ih ("" ++ b),
      String.empty_append, String.append_assoc]

theorem join_cons (a : String) (l : List String) :
    String.join (a :: l) = a ++ String.join l := by
  show (a :: l).foldl (fun r s => r ++ s) "" = a ++ l.foldl (fun r s => r ++ s) ""
  rw [List.foldl_cons, String.empty_append, foldl_append_init l a]

theorem processFunctionCalls_eq_runCalls {σ : Type} (tools : Registry σ) :
    ∀ (cs : List FunctionCall) (s : σ),
      processFunctionCalls tools cs s
        = (String.join (List.zipWith summaryFor (cs.map FunctionCall.name)
            (runCalls tools cs s).1), (runCalls tools cs s).2) := by
  intro cs
  induction cs with
  | nil => intro s; simp [processFunctionCalls, runCalls, String.join]
  | cons c cs ih =>
    intro s
    simp only [processFunctionCalls, runCalls, List.map_cons, List.zipWith_cons_cons,
      ih ((executeTool tools c.name c.args s).2)]
    rw [Prod.mk.injEq]
    exact ⟨(join_cons _ _).symm, rfl⟩

theorem runCalls_length {σ : Type} (tools : Registry σ) :
    ∀ (cs : List FunctionCall) (s : σ), (runCalls tools cs s).1.length = cs.length := by
  intro cs
  induction cs with
  | nil => intro s; rfl
  | cons c cs ih => intro s; simp [runCalls, ih]

/-- Claim C6: the dispatch loop of a turn executes the model's calls
strictly sequentially in emission order (call N+1 runs in the state call N
left, as runCalls states), a failed ToolResult does not abort the remaining
calls (one result per call, always), and the final text folds the per-call
summaries in emission order without interleaving (shown on the part_017
revision, whose returned turn text is the prefixed concatenation). -/
theorem dispatch_loop_sequential {σ : Type} (tools : Registry σ) (cs : List FunctionCall)
    (s : σ) :
    processFunctionCalls tools cs s
      = (String.join (List.zipWith summaryFor (cs.map FunctionCall.name)
          (runCalls tools cs s).1), (runCalls tools cs s).2)
    ∧ (runCalls tools cs s).1.length = cs.length
    ∧ ∀ (hist : List ConversationMessage) (txt userInput : String) (now : Nat)
        (c : FunctionCall) (cs2 : List FunctionCall),
        (Part017.generateResponse (⟨hist, some tools⟩ : GeminiClient σ)
            ⟨c :: cs2, txt⟩ userInput now s).1
          = "I executed " ++ toString (c :: cs2).length ++ " tool(s) for you:\n\n"
            ++ (processFunctionCalls tools (c :: cs2) s).1 := by
  refine ⟨processFunctionCalls_eq_runCalls tools cs s, runCalls_length tools cs s, ?_⟩
  intro hist txt userInput now c cs2
  simp only [Part017.generateResponse, List.length_cons]
  rw [if_pos (by omega : (0 : Nat) < cs2.length + 1)]

/-- Claim C8 (amended): a reply with no function calls and empty or
whitespace-only text makes the turn return the fixed non-empty fallback
string, and the history afterwards records exactly the one new user message
of the turn and no new model message (the empty-reply throw skips the
assistant append and the catch only returns the fallback). -/
theorem empty_reply_fallback {σ : Type} (client : GeminiClient σ) (reply : ModelReply)
    (followUpText userInput : String) (now : Nat) (s : σ)
    (hcalls : reply.functionCalls = [])
    (hempty : jsTrim reply.text = "") :
    GeminiTs.generateResponse client reply followUpText userInput now s
      = (fallbackText,
         { client with conversationHistory :=
             addToHistory client.conversationHistory GRole.user userInput now },
         s)
    ∧ fallbackText ≠ "" := by
  constructor
  · unfold GeminiTs.generateResponse
    cases h : client.toolRegistry <;> simp [h, hcalls, textReply, hempty]
  · decide

/-- Claim C8, witness: a whitespace-only reply on a fresh client yields the
fallback text and a history holding only the new user message. -/
theorem empty_reply_fallback_witness :
    GeminiTs.generateResponse (⟨[], none⟩ : GeminiClient Unit)
        ⟨[], "   "⟩ "follow" "hi" 0 ()
      = (fallbackText,
         (⟨[{ role := GRole.user, content := "hi", timestamp := 0 }], none⟩ :
           GeminiClient Unit),
         ()) := by
  have h := (empty_reply_fallback (⟨[], none⟩ : GeminiClient Unit)
    ⟨[], "   "⟩ "follow" "hi" 0 () rfl (by decide)).1
  simpa [addToHistory, sliceNeg] using h

/-- Claim C8, counterexample: on the same turn the claim asserts one new
model message in the history, but the history after the turn contains the
one user message and zero assistant messages. -/
theorem empty_reply_no_model_message_counterexample :
    (GeminiTs.generateResponse (⟨[], none⟩ : GeminiClient Unit)
        ⟨[], "   "⟩ "follow" "hi" 0 ()).1 = fallbackText
    ∧ ((GeminiTs.generateResponse (⟨[], none⟩ : GeminiClient Unit)
        ⟨[], "   "⟩ "follow" "hi" 0 ()).2.1.conversationHistory.filter
          (fun m => m.role = GRole.user)).length = 1
    ∧ ((GeminiTs.generateResponse (⟨[], none⟩ : GeminiClient Unit)
        ⟨[], "   "⟩ "follow" "hi" 0 ()).2.1.conversationHistory.filter
          (fun m => m.role = GRole.assistant)).length = 0 := by
  decide

end Jarvis
